import Mathlib

set_option maxRecDepth 16384

/-!
Verification of the legal-document segmentation and metadata-driven ranking
pipeline of this repository (`knowledge.py` together with the constants in
`init.py`).  Python functions are shallowly embedded as executable Lean
definitions over `List Char` / `String`; Python `dict` metadata becomes an
insertion-ordered association list; float scores become `ℚ`.
-/

namespace RagConsulta

/-- Characters matched by Python's `\s` (and stripped by `str.strip()`):
the Unicode whitespace set used by CPython for `str` patterns. -/
def isPySpace (c : Char) : Bool :=
  let v := c.toNat
  (9 ≤ v && v ≤ 13) || v == 32 || (28 ≤ v && v ≤ 31) || v == 0x85 ||
  v == 0xA0 || v == 0x1680 || (0x2000 ≤ v && v ≤ 0x200A) ||
  v == 0x2028 || v == 0x2029 || v == 0x202F || v == 0x205F || v == 0x3000

/-- Characters removed by `clean_text`'s second substitution:
the class `[\x00-\x1F\x7F-\x9F]`. -/
def isCtrl (c : Char) : Bool :=
  let v := c.toNat
  v ≤ 0x1F || (0x7F ≤ v && v ≤ 0x9F)

/-- Model of Python `str.lower()` on the character ranges occurring in this
program's document names: ASCII `A`-`Z` and the Latin-1 uppercase letters
`À`-`Þ` (excluding `×`) map down by 32; everything else is unchanged. -/
def toLowerPy (c : Char) : Char :=
  let v := c.toNat
  if 65 ≤ v ∧ v ≤ 90 then Char.ofNat (v + 32)
  else if 0xC0 ≤ v ∧ v ≤ 0xDE ∧ v ≠ 0xD7 then Char.ofNat (v + 32)
  else c

def isDigitCh (c : Char) : Bool := 48 ≤ c.toNat && c.toNat ≤ 57

def isUpperAZ (c : Char) : Bool := 65 ≤ c.toNat && c.toNat ≤ 90

/-- Python substring test `pat in s` on character lists. -/
def containsSub (pat : List Char) : List Char → Bool
  | [] => pat.isEmpty
  | c :: cs => pat.isPrefixOf (c :: cs) || containsSub pat cs

/-- Scalar metadata values: the Python dicts in this pipeline hold strings and
numbers (ints and floats; floats are modelled exactly as rationals). -/
inductive MVal where
  | str (s : String)
  | num (q : ℚ)
deriving DecidableEq, Repr

/-- A Python dict with string keys, modelled as an insertion-ordered
association list (keys unique by construction). -/
def Metadata := List (String × MVal)

instance : DecidableEq Metadata := by
  unfold Metadata
  infer_instance

/-- Dict lookup `md.get(k)` / `md[k]`. -/
def mget : Metadata → String → Option MVal
  | [], _ => none
  | (k2, v) :: rest, k => if k2 = k then some v else mget rest k

/-- Dict assignment `md[k] = v`: replaces in place, or appends a new key at
the end (Python dicts preserve insertion order). -/
def mset : Metadata → String → MVal → Metadata
  | [], k, v => [(k, v)]
  | (k2, v2) :: rest, k, v =>
      if k2 = k then (k, v) :: rest else (k2, v2) :: mset rest k v

theorem mget_mset_self (md : Metadata) (k : String) (v : MVal) :
    mget (mset md k v) k = some v := by
  induction md with
  | nil => simp [mget, mset]
  | cons p rest ih =>
      obtain ⟨k2, v2⟩ := p
      by_cases h : k2 = k
      · simp [mget, mset, h]
      · simp [mget, mset, h, ih]

theorem mget_mset_ne (md : Metadata) (k k2 : String) (v : MVal)
    (h : k ≠ k2) : mget (mset md k2 v) k = mget md k := by
  have hne : ¬ (k2 = k) := fun hh => h hh.symm
  induction md with
  | nil => simp [mget, mset, hne]
  | cons p rest ih =>
      obtain ⟨k3, v3⟩ := p
      by_cases h3 : k3 = k2
      · subst h3
        simp [mget, mset, hne]
      · by_cases h4 : k3 = k
        · subst h4
          simp [mget, mset, h3]
        · simp [mget, mset, h3, h4, ih]

/-! ## The text normalizer `clean_text`

Source (`knowledge.py`):
```
text = re.sub(r"\s+", " ", text)
text = re.sub(r"[\x00-\x1F\x7F-\x9F]", "", text)
return text.strip()
```
The first substitution replaces each maximal whitespace run with one space;
`collapseAux` carries a flag recording whether the previous character was
part of a whitespace run. -/

def collapseAux : Bool → List Char → List Char
  | _, [] => []
  | prev, c :: cs =>
      if isPySpace c then
        if prev then collapseAux true cs else ' ' :: collapseAux true cs
      else c :: collapseAux false cs

def collapse (l : List Char) : List Char := collapseAux false l

/-- Python `str.strip()`: drop leading and trailing whitespace. -/
def pyStrip (l : List Char) : List Char :=
  (((l.dropWhile isPySpace).reverse).dropWhile isPySpace).reverse

/-- `clean_text` from `knowledge.py`, on character lists. -/
def clean_text (l : List Char) : List Char :=
  pyStrip ((collapse l).filter (fun c => !isCtrl c))

/-- No two consecutive whitespace characters. -/
def noDbl : List Char → Bool
  | a :: b :: t => !(isPySpace a && isPySpace b) && noDbl (b :: t)
  | _ => true

/-! ## The metadata extractor `extract_document_info`

Source (`knowledge.py`): `doc_type` comes from an if/elif chain of
case-insensitive substring tests on the document name; `doc_number` /
`doc_year` from `re.search(r"(?:n[º°.]?\s*)([\d\.]+)(?:/(\d{4}))?", doc_name)`;
`publication_date` from
`re.search(r"(\d{1,2})\s+de\s+([a-zç]+)\s+de\s+(\d{4})", text, re.IGNORECASE)`
formatted through `month_to_number`. -/

/-- Attempt to match `(?:n[º°.]?\s*)([\d\.]+)(?:/(\d{4}))?` at the start of
the list.  The group `n[º°.]?` is mandatory in the source regex (no `?` on
the non-capturing group); only the `º`/`°`/`.` suffix inside it is optional,
and the regex engine backtracks on that suffix.  Returns the number group
and the optional 4-digit year group. -/
def matchNumTail (r : List Char) : Option (List Char × Option (List Char)) :=
  let r2 := r.dropWhile isPySpace
  let grp := r2.takeWhile (fun c => isDigitCh c || c == '.')
  if grp.isEmpty then none
  else
    let after := r2.drop grp.length
    let yr : Option (List Char) :=
      match after with
      | '/' :: a :: b :: c :: d :: _ =>
          if isDigitCh a && isDigitCh b && isDigitCh c && isDigitCh d then
            some [a, b, c, d]
          else none
      | _ => none
    some (grp, yr)

def matchNumAt : List Char → Option (List Char × Option (List Char))
  | 'n' :: rest =>
      (match rest with
       | c :: r2 =>
           if c == 'º' || c == '°' || c == '.' then
             match matchNumTail r2 with
             | some res => some res
             | none => matchNumTail rest
           else matchNumTail rest
       | [] => matchNumTail [])
  | _ => none

/-- Leftmost match of the document-number pattern (`re.search`). -/
def searchNum : List Char → Option (List Char × Option (List Char))
  | [] => none
  | c :: cs =>
      match matchNumAt (c :: cs) with
      | some res => some res
      | none => searchNum cs

/-- Letters matched by `[a-zç]` under `re.IGNORECASE`. -/
def isMonthCh (c : Char) : Bool :=
  (97 ≤ c.toNat && c.toNat ≤ 122) || isUpperAZ c || c == 'ç' || c == 'Ç'

/-- After the day digits: match `\s+de\s+([a-zç]+)\s+de\s+(\d{4})`
(case-insensitive on the literal `de`), returning month and year groups. -/
def matchDateTail (r : List Char) : Option (List Char × List Char) :=
  match r with
  | c :: _ =>
      if isPySpace c then
        match r.dropWhile isPySpace with
        | d1 :: e1 :: r2 =>
            if toLowerPy d1 == 'd' && toLowerPy e1 == 'e' then
              match r2 with
              | c2 :: _ =>
                  if isPySpace c2 then
                    let r3 := r2.dropWhile isPySpace
                    let mon := r3.takeWhile isMonthCh
                    if mon.isEmpty then none
                    else
                      match r3.drop mon.length with
                      | c3 :: _ =>
                          if isPySpace c3 then
                            match (r3.drop mon.length).dropWhile isPySpace with
                            | d2 :: e2 :: r4 =>
                                if toLowerPy d2 == 'd' && toLowerPy e2 == 'e' then
                                  match r4 with
                                  | c4 :: _ =>
                                      if isPySpace c4 then
                                        match r4.dropWhile isPySpace with
                                        | a :: b :: c5 :: d5 :: _ =>
                                            if isDigitCh a && isDigitCh b &&
                                               isDigitCh c5 && isDigitCh d5 then
                                              some (mon, [a, b, c5, d5])
                                            else none
                                        | _ => none
                                      else none
                                  | [] => none
                                else none
                            | _ => none
                          else none
                      | [] => none
                  else none
              | [] => none
            else none
        | _ => none
      else none
  | [] => none

/-- Attempt the publication-date pattern at the start of the list:
`(\d{1,2})` is greedy, so a two-digit day is tried before backtracking to
one digit. -/
def matchDateAt : List Char → Option (List Char × List Char × List Char)
  | d1 :: d2 :: rest =>
      if isDigitCh d1 then
        if isDigitCh d2 then
          match matchDateTail rest with
          | some (mon, yr) => some ([d1, d2], mon, yr)
          | none =>
              match matchDateTail (d2 :: rest) with
              | some (mon, yr) => some ([d1], mon, yr)
              | none => none
        else
          match matchDateTail (d2 :: rest) with
          | some (mon, yr) => some ([d1], mon, yr)
          | none => none
      else none
  | _ => none

/-- Leftmost match of the publication-date pattern (`re.search`). -/
def searchDate : List Char → Option (List Char × List Char × List Char)
  | [] => none
  | c :: cs =>
      match matchDateAt (c :: cs) with
      | some res => some res
      | none => searchDate cs

/-- `month_to_number` from `knowledge.py`: a fixed 12-entry dict lookup on
the lowercased month name, defaulting to `"00"`. -/
def month_to_number (m : String) : String :=
  let months : List (String × String) :=
    [("janeiro", "01"), ("fevereiro", "02"), ("março", "03"), ("abril", "04"),
     ("maio", "05"), ("junho", "06"), ("julho", "07"), ("agosto", "08"),
     ("setembro", "09"), ("outubro", "10"), ("novembro", "11"),
     ("dezembro", "12")]
  let ml : String := ⟨m.data.map toLowerPy⟩
  match months.find? (fun p => p.1 == ml) with
  | some p => p.2
  | none => "00"

/-- The `doc_type` if/elif chain of `extract_document_info`, applied to the
initial `{"source": doc_name, "doc_type": "unknown"}` dict.  The source
checks `lei` first, then `decreto`, then `resolução`/`resolucao`, then
`código`/`codigo`. -/
def docTypeInfo (docName : String) : Metadata :=
  let lowered := docName.data.map toLowerPy
  let info1 : Metadata :=
    [("source", MVal.str docName), ("doc_type", MVal.str "unknown")]
  if containsSub "lei".data lowered then
    mset info1 "doc_type" (MVal.str "lei")
  else if containsSub "decreto".data lowered then
    mset info1 "doc_type" (MVal.str "decreto")
  else if containsSub "resolução".data lowered ||
          containsSub "resolucao".data lowered then
    mset info1 "doc_type" (MVal.str "resolucao")
  else if containsSub "código".data lowered ||
          containsSub "codigo".data lowered then
    mset info1 "doc_type" (MVal.str "codigo")
  else info1

/-- The `doc_number` / `doc_year` step of `extract_document_info`. -/
def applyNum (docName : List Char) (info : Metadata) : Metadata :=
  match searchNum docName with
  | none => info
  | some (grp, yr) =>
      let info2 := mset info "doc_number" (MVal.str ⟨grp⟩)
      match yr with
      | none => info2
      | some y => mset info2 "doc_year" (MVal.str ⟨y⟩)

/-- The `publication_date` step of `extract_document_info`: note the day
group is interpolated verbatim (no zero padding). -/
def applyDate (text : List Char) (info : Metadata) : Metadata :=
  match searchDate text with
  | none => info
  | some (day, mon, yr) =>
      mset info "publication_date"
        (MVal.str (String.mk day ++ "/" ++ month_to_number ⟨mon⟩ ++ "/" ++
                   String.mk yr))

/-- `extract_document_info` from `knowledge.py`. -/
def extract_document_info (docName text : String) : Metadata :=
  applyDate text.data (applyNum docName.data (docTypeInfo docName))

/-! ## The structural segmenter `split_legal_text`

Source (`knowledge.py`): article detection by
`re.findall(r"Art\.?\s*(\d+[º°]?[A-Z]?)[.\s-]+(.*?)(?=Art\.?\s*\d+[º°]?[A-Z]?|$)", text, re.DOTALL)`,
then per-article chunk construction (subdividing when the built text exceeds
`CHUNK_SIZE`), a generic chunking fallback when no article matched, and a
final validation pass. -/

def CHUNK_SIZE : Nat := 750
def CHUNK_OVERLAP : Nat := 150

/-- Does the list start with the case-sensitive token `Art`? -/
def headerPrefixOk : List Char → Bool
  | 'A' :: 'r' :: 't' :: _ => true
  | _ => false

/-- The text contains the case-sensitive token `Art` somewhere. -/
def containsArt : List Char → Bool
  | [] => false
  | c :: cs => headerPrefixOk (c :: cs) || containsArt cs

/-- Match `\.?\s*(\d+[º°]?[A-Z]?)[.\s-]+` (the part of the article header
after the literal `Art`), returning the captured number group and the
remainder after the separator run.  The regex engine's backtracking never
changes the outcome here: the separator class `[.\s-]` is disjoint from
digits, `º`/`°` and `A`-`Z`, so the greedy maximal parse is the only
candidate. -/
def matchHeaderTail (rest : List Char) : Option (List Char × List Char) :=
  let rest1 := match rest with
    | '.' :: r => r
    | _ => rest
  let rest2 := rest1.dropWhile isPySpace
  let digits := rest2.takeWhile isDigitCh
  if digits.isEmpty then none
  else
    let rest3 := rest2.drop digits.length
    let s1 : Option Char × List Char := match rest3 with
      | c :: r => if c == 'º' || c == '°' then (some c, r) else (none, rest3)
      | [] => (none, [])
    let s2 : Option Char × List Char := match s1.2 with
      | c :: r => if isUpperAZ c then (some c, r) else (none, s1.2)
      | [] => (none, [])
    let sep := s2.2.takeWhile (fun c => c == '.' || c == '-' || isPySpace c)
    if sep.isEmpty then none
    else some (digits ++ s1.1.toList ++ s2.1.toList, s2.2.drop sep.length)

/-- Full article-header match attempt at the start of the list. -/
def matchHeader (l : List Char) : Option (List Char × List Char) :=
  if headerPrefixOk l then matchHeaderTail (l.drop 3) else none

/-- The lookahead `(?=Art\.?\s*\d+[º°]?[A-Z]?|$)` minus the `$` branch:
does a next article header start here?  It needs `Art`, an optional dot,
optional whitespace and at least one digit (the trailing optionals of the
lookahead match trivially). -/
def matchHdrLA (l : List Char) : Bool :=
  headerPrefixOk l &&
    (let rest := l.drop 3
     let rest1 := match rest with
       | '.' :: r => r
       | _ => rest
     !((rest1.dropWhile isPySpace).takeWhile isDigitCh).isEmpty)

/-- The lazy body group `(.*?)` under `re.DOTALL`: consume characters up to
the first position where the lookahead matches, or to the end of input
(where the `$` branch fires). -/
def takeContent : List Char → List Char × List Char
  | [] => ([], [])
  | c :: cs =>
      if matchHdrLA (c :: cs) then ([], c :: cs)
      else
        let p := takeContent cs
        (c :: p.1, p.2)

/-- Fuelled scan loop of `re.findall`: try a match at the current position;
on success continue after the match end (non-overlapping), on failure
advance one character.  Each step strictly shortens the remaining input, so
`length + 1` fuel never runs out. -/
def findallAux : Nat → List Char → List (List Char × List Char)
  | 0, _ => []
  | fuel + 1, l =>
      match matchHeader l with
      | some hd =>
          (hd.1, (takeContent hd.2).1) :: findallAux fuel (takeContent hd.2).2
      | none =>
          match l with
          | [] => []
          | _ :: cs => findallAux fuel cs

/-- `re.findall(article_pattern, text, re.DOTALL)` from `split_legal_text`. -/
def findall (l : List Char) : List (List Char × List Char) :=
  findallAux (l.length + 1) l

/-- A chunk value as handled by the source's final validation pass: either a
dict (whose `text` / `metadata` entries may in principle be missing) or a
bare string. -/
inductive RawChunk where
  | dict (text : Option String) (metadata : Option Metadata)
  | plain (s : String)
deriving DecidableEq

instance : Inhabited RawChunk := ⟨RawChunk.plain ""⟩

/-- A dict chunk carrying both a `text` and a `metadata` entry. -/
def wfRaw : RawChunk → Bool
  | .dict (some _) (some _) => true
  | _ => false

def rawMetaGet (c : RawChunk) (k : String) : Option MVal :=
  match c with
  | .dict _ (some m) => mget m k
  | _ => none

def rawText : RawChunk → Option String
  | .dict t _ => t
  | .plain s => some s

/-- Python `enumerate` fused with a map, tracking the running index. -/
def enumMap (f : Nat → α → β) : Nat → List α → List β
  | _, [] => []
  | i, a :: as => f i a :: enumMap f (i + 1) as

/-- The per-article metadata:
`metadata = {**doc_info, article_number: number.strip(), content_type: "article"}`. -/
def articleMeta (info : Metadata) (number : List Char) : Metadata :=
  mset (mset info "article_number" (MVal.str ⟨pyStrip number⟩))
    "content_type" (MVal.str "article")

/-- The built article text `f"Artigo {number.strip()}: {clean_content}"`. -/
def articleText (number content : List Char) : List Char :=
  "Artigo ".data ++ pyStrip number ++ ": ".data ++ clean_text content

/-- The per-article loop body of `split_legal_text`: clean the body, build
`"Artigo {number}: {body}"`, extend the document metadata with
`article_number` and `content_type = "article"`, and when the built text
exceeds `CHUNK_SIZE`, re-split it (via the supplied text splitter) into
parts whose metadata additionally carries `part` and `total_parts`.
The splitter argument stands for the external
`RecursiveCharacterTextSplitter(chunk_size=CHUNK_SIZE, chunk_overlap=CHUNK_OVERLAP).split_text`. -/
def buildArticleChunks (splitter : String → List String) (info : Metadata)
    (number content : List Char) : List RawChunk :=
  let md := articleMeta info number
  let chunkText := articleText number content
  if CHUNK_SIZE < chunkText.length then
    let subs := splitter ⟨chunkText⟩
    enumMap (fun i sub =>
      RawChunk.dict (some sub)
        (some (mset (mset md "part" (MVal.num ((i + 1 : Nat) : ℚ)))
          "total_parts" (MVal.num subs.length)))) 0 subs
  else [RawChunk.dict (some ⟨chunkText⟩) (some md)]

/-- The chunk-construction phase of `split_legal_text`: one pass over the
detected articles, or the generic-chunking fallback (`chunk_index`,
`total_chunks`) when no article matched. -/
def buildChunks (splitter : String → List String) (text : List Char)
    (info : Metadata) : List RawChunk :=
  let articles := findall text
  if articles.isEmpty then
    let simple := splitter ⟨text⟩
    enumMap (fun i c =>
      RawChunk.dict (some c)
        (some (mset (mset info "chunk_index" (MVal.num i))
          "total_chunks" (MVal.num simple.length)))) 0 simple
  else
    articles.flatMap (fun a => buildArticleChunks splitter info a.1 a.2)

/-- The final validation pass of `split_legal_text`: keep dicts carrying
both keys, wrap bare strings as
`{"text": chunk, "metadata": {"source": "document"}}`, drop anything else. -/
def validateChunks : List RawChunk → List RawChunk
  | [] => []
  | RawChunk.dict (some t) (some m) :: rest =>
      RawChunk.dict (some t) (some m) :: validateChunks rest
  | RawChunk.dict _ _ :: rest => validateChunks rest
  | RawChunk.plain s :: rest =>
      RawChunk.dict (some s) (some [("source", MVal.str "document")]) ::
        validateChunks rest

/-- `split_legal_text` from `knowledge.py`, parameterized by the external
text splitter. -/
def split_legal_text (splitter : String → List String) (text : String)
    (info : Metadata) : List RawChunk :=
  validateChunks (buildChunks splitter text.data info)

/-- Modelled from the spec: the external
`RecursiveCharacterTextSplitter.split_text` is not part of this repository;
the spec describes it as an overlapping-window splitter producing windows of
at most `max_size` with `overlap` shared characters.  The boundary-preference
refinement is abstracted to fixed-stride windows (stride
`CHUNK_SIZE - CHUNK_OVERLAP`); the claims settled here do not depend on
where window boundaries fall. -/
def windowsFuel (size stride : Nat) : Nat → List Char → List (List Char)
  | 0, l => [l]
  | fuel + 1, l =>
      if l.length ≤ size then [l]
      else l.take size :: windowsFuel size stride fuel (l.drop stride)

/-- Modelled from the spec: a concrete splitter instance used to witness the
segmentation theorems. -/
def pySplitText (s : String) : List String :=
  (windowsFuel CHUNK_SIZE (CHUNK_SIZE - CHUNK_OVERLAP) s.data.length
    s.data).map (fun l => ⟨l⟩)

/-! ## The relevance reranker `rerank_by_metadata`

Source (`knowledge.py`, inside `configure_advanced_retriever`): each
document's `adjusted_score` is its incoming `score` (default 0) plus bonuses
for `importance == "alta"`, `content_type == "article"` and a truthy
`doc_year` parsing to an int greater than 2018; the list is then sorted by
`adjusted_score` descending (Python `sorted`, a stable sort). -/

/-- A langchain document as consumed by the reranker. -/
structure LCDoc where
  pageContent : String
  metadata : Metadata
deriving DecidableEq

/-- Python `int(s)` on strings: strip whitespace, optional sign, at least
one digit. -/
def pyInt : String → Option ℤ
  | s =>
      let t := pyStrip s.data
      let sd : ℤ × List Char := match t with
        | '+' :: r => (1, r)
        | '-' :: r => (-1, r)
        | _ => (1, t)
      if sd.2.isEmpty || !sd.2.all isDigitCh then none
      else some (sd.1 * (sd.2.foldl (fun acc c => acc * 10 + (c.toNat - 48)) 0 : Nat))

/-- The starting value `base_score = doc.metadata.get("score", 0)`. -/
def baseScore (md : Metadata) : ℚ :=
  match mget md "score" with
  | some (MVal.num q) => q
  | _ => 0

/-- Source statement `if importance == "alta": base_score += 0.2`. -/
def scoreStep1 (md : Metadata) (s : ℚ) : ℚ :=
  if mget md "importance" = some (MVal.str "alta") then s + 2/10 else s

/-- Source statement `if content_type == "article": base_score += 0.1`. -/
def scoreStep2 (md : Metadata) (s : ℚ) : ℚ :=
  if mget md "content_type" = some (MVal.str "article") then s + 1/10 else s

/-- Source block `if doc_year: try: if int(doc_year) > 2018: base_score +=
0.1 except: pass` — the truthiness test skips an empty string and a failed
parse adds nothing (and does not raise). -/
def scoreStep3 (md : Metadata) (s : ℚ) : ℚ :=
  match mget md "doc_year" with
  | some (MVal.str y) =>
      if y.isEmpty then s
      else
        match pyInt y with
        | some n => if 2018 < n then s + 1/10 else s
        | none => s
  | _ => s

/-- The score-adjustment body of `rerank_by_metadata`, computed sequentially
as in the source: start from `metadata.get("score", 0)` and accumulate the
three bonuses in order. -/
def computeAdjusted (md : Metadata) : ℚ :=
  scoreStep3 md (scoreStep2 md (scoreStep1 md (baseScore md)))

/-- The in-place metadata update `doc.metadata["adjusted_score"] = ...`. -/
def setAdj (d : LCDoc) : LCDoc :=
  LCDoc.mk d.pageContent
    (mset d.metadata "adjusted_score" (MVal.num (computeAdjusted d.metadata)))

/-- The sort key `x.metadata.get("adjusted_score", 0)`. -/
def adjKey (d : LCDoc) : ℚ :=
  match mget d.metadata "adjusted_score" with
  | some (MVal.num q) => q
  | _ => 0

/-- Stable insertion step for descending order: an element from earlier in
the input passes over strictly greater keys and lands before the first
element of equal or smaller key. -/
def insDesc (x : LCDoc) : List LCDoc → List LCDoc
  | [] => [x]
  | y :: ys => if adjKey x < adjKey y then y :: insDesc x ys else x :: y :: ys

/-- Python `sorted(docs, key=..., reverse=True)`: the unique stable sort in
descending key order. -/
def sortDesc : List LCDoc → List LCDoc
  | [] => []
  | x :: xs => insDesc x (sortDesc xs)

/-- `rerank_by_metadata` from `knowledge.py`: annotate every document with
its `adjusted_score`, then stable-sort by that score, descending. -/
def rerank_by_metadata (docs : List LCDoc) : List LCDoc :=
  sortDesc (docs.map setAdj)

/-! ## Auxiliary definitions used in the theorem statements -/

/-- Characterization of the recency-bonus condition: `doc_year` is present,
truthy, and parses as an int greater than 2018. -/
def yearRecent (md : Metadata) : Bool :=
  match mget md "doc_year" with
  | some (MVal.str y) =>
      !y.isEmpty &&
        (match pyInt y with
         | some n => decide (2018 < n)
         | none => false)
  | _ => false

/-- The first character of the list is not whitespace (vacuous for `[]`). -/
def headOk : List Char → Bool
  | [] => true
  | c :: _ => !isPySpace c

/-- First example candidate of the spec's reranking scenario:
`{score: 0.5, metadata: {content_type: "chunk"}}`. -/
def exDoc1 : LCDoc :=
  LCDoc.mk "" [("score", MVal.num (5/10)), ("content_type", MVal.str "chunk")]

/-- Second example candidate of the spec's reranking scenario:
`{score: 0.4, metadata: {content_type: "article", importance: "alta"}}`. -/
def exDoc2 : LCDoc :=
  LCDoc.mk "" [("score", MVal.num (4/10)), ("content_type", MVal.str "article"),
    ("importance", MVal.str "alta")]

/-- A single oversized article: the built text `"Artigo 1: a…a"` has
`10 + 800 = 810 > 750` characters. -/
def longArticle : String := ⟨"Art. 1. ".data ++ List.replicate 800 'a'⟩

/-- Input with a non-whitespace control character between two spaces. -/
def ctrlInput : List Char := 'a' :: ' ' :: '\x01' :: ' ' :: 'b' :: []

/-! ## Supporting lemmas: the metadata extractor -/

theorem mget_applyNum_ne (d : List Char) (info : Metadata) (k : String)
    (h1 : k ≠ "doc_number") (h2 : k ≠ "doc_year") :
    mget (applyNum d info) k = mget info k := by
  unfold applyNum
  cases searchNum d with
  | none => rfl
  | some p =>
      obtain ⟨grp, yr⟩ := p
      cases yr with
      | none => simp only [mget_mset_ne _ _ _ _ h1]
      | some y =>
          rw [mget_mset_ne _ _ _ _ h2, mget_mset_ne _ _ _ _ h1]

theorem mget_applyDate_ne (t : List Char) (info : Metadata) (k : String)
    (h : k ≠ "publication_date") :
    mget (applyDate t info) k = mget info k := by
  unfold applyDate
  cases searchDate t with
  | none => rfl
  | some p =>
      obtain ⟨day, mon, yr⟩ := p
      rw [mget_mset_ne _ _ _ _ h]

theorem mget_docTypeInfo_other (n : String) (k : String)
    (h1 : k ≠ "source") (h2 : k ≠ "doc_type") :
    mget (docTypeInfo n) k = none := by
  have h1' : ¬ (("source" : String) = k) := fun hh => h1 hh.symm
  have h2' : ¬ (("doc_type" : String) = k) := fun hh => h2 hh.symm
  simp only [docTypeInfo]
  split_ifs <;>
    simp [mget_mset_ne _ _ _ _ h2, mget, h1', h2']

/-- C1 (corrected): `extract_document_info` assigns `doc_type` by
case-insensitive substring match against the document name, but the source
checks the categories in the order `lei`, then `decreto`, then
`resolucao`/`resolução`, then `codigo`/`código` (not `codigo` first as the
spec states); first match wins, so a name containing both `Código` and
`Lei` gets `doc_type = "lei"`. -/
theorem docType_priority :
    (∀ n b : String,
      (containsSub "lei".data (n.data.map toLowerPy) = true →
        mget (extract_document_info n b) "doc_type" = some (MVal.str "lei")) ∧
      (containsSub "lei".data (n.data.map toLowerPy) = false →
       containsSub "decreto".data (n.data.map toLowerPy) = true →
        mget (extract_document_info n b) "doc_type" =
          some (MVal.str "decreto")) ∧
      (containsSub "lei".data (n.data.map toLowerPy) = false →
       containsSub "decreto".data (n.data.map toLowerPy) = false →
       (containsSub "resolução".data (n.data.map toLowerPy) ||
        containsSub "resolucao".data (n.data.map toLowerPy)) = true →
        mget (extract_document_info n b) "doc_type" =
          some (MVal.str "resolucao")) ∧
      (containsSub "lei".data (n.data.map toLowerPy) = false →
       containsSub "decreto".data (n.data.map toLowerPy) = false →
       (containsSub "resolução".data (n.data.map toLowerPy) ||
        containsSub "resolucao".data (n.data.map toLowerPy)) = false →
       (containsSub "código".data (n.data.map toLowerPy) ||
        containsSub "codigo".data (n.data.map toLowerPy)) = true →
        mget (extract_document_info n b) "doc_type" =
          some (MVal.str "codigo")) ∧
      (containsSub "lei".data (n.data.map toLowerPy) = false →
       containsSub "decreto".data (n.data.map toLowerPy) = false →
       (containsSub "resolução".data (n.data.map toLowerPy) ||
        containsSub "resolucao".data (n.data.map toLowerPy)) = false →
       (containsSub "código".data (n.data.map toLowerPy) ||
        containsSub "codigo".data (n.data.map toLowerPy)) = false →
        mget (extract_document_info n b) "doc_type" =
          some (MVal.str "unknown"))) ∧
    mget (extract_document_info "Código do Consumidor (Lei nº 8.078/90)" "")
      "doc_type" = some (MVal.str "lei") := by
  constructor
  · intro n b
    have hbase : mget (extract_document_info n b) "doc_type" =
        mget (docTypeInfo n) "doc_type" := by
      unfold extract_document_info
      rw [mget_applyDate_ne _ _ _ (by decide),
        mget_applyNum_ne _ _ _ (by decide) (by decide)]
    refine ⟨?_, ?_, ?_, ?_, ?_⟩
    · intro h1
      rw [hbase]
      simp only [docTypeInfo]
      simp only [h1, if_true]
      exact mget_mset_self _ _ _
    · intro h1 h2
      rw [hbase]
      simp only [docTypeInfo]
      simp only [h1, h2, Bool.false_eq_true, if_false, if_true]
      exact mget_mset_self _ _ _
    · intro h1 h2 h3
      rw [hbase]
      simp only [docTypeInfo]
      simp only [h1, h2, h3, Bool.false_eq_true, if_false, if_true]
      exact mget_mset_self _ _ _
    · intro h1 h2 h3 h4
      rw [hbase]
      simp only [docTypeInfo]
      simp only [h1, h2, h3, h4, Bool.false_eq_true, if_false, if_true]
      exact mget_mset_self _ _ _
    · intro h1 h2 h3 h4
      rw [hbase]
      simp only [docTypeInfo]
      simp only [h1, h2, h3, h4, Bool.false_eq_true, if_false]
      rfl
  · decide

/-- Witness for `docType_priority` at a concrete input. -/
theorem docType_priority_wit :
    mget (extract_document_info "Decreto 123" "") "doc_type" =
      some (MVal.str "decreto") :=
  (docType_priority.1 "Decreto 123" "").2.1 (by decide) (by decide)

/-- Counterexample to C1 as stated: the spec's priority order predicts
`doc_type = "codigo"` for a name containing both `Código` and `Lei`, but
the code yields `"lei"`. -/
theorem docType_priority_cex :
    mget (extract_document_info "Código do Consumidor (Lei nº 8.078/90)" "")
        "doc_type" ≠ some (MVal.str "codigo") ∧
    mget (extract_document_info "Código do Consumidor (Lei nº 8.078/90)" "")
        "doc_type" = some (MVal.str "lei") := by
  constructor
  · decide
  · decide

/-- C8 (corrected): the document-number pattern requires the literal `n`
marker (only its `º`/`°`/`.` suffix is optional), so a name carrying a bare
number without the marker yields no `doc_number`; when the pattern finds no
match both fields are simply absent; `extract("Lei n. 13.828/2019", ...)`
still yields `doc_number = "13.828"` and `doc_year = "2019"`. -/
theorem docNumber_marker :
    (∀ n b : String, searchNum n.data = none →
      mget (extract_document_info n b) "doc_number" = none ∧
      mget (extract_document_info n b) "doc_year" = none) ∧
    (∀ l : List Char, containsSub ['n'] l = false → searchNum l = none) ∧
    (mget (extract_document_info "Lei n. 13.828/2019" "") "doc_number" =
      some (MVal.str "13.828") ∧
     mget (extract_document_info "Lei n. 13.828/2019" "") "doc_year" =
      some (MVal.str "2019")) := by
  refine ⟨?_, ?_, by decide, by decide⟩
  · intro n b h
    have hnum : applyNum n.data (docTypeInfo n) = docTypeInfo n := by
      unfold applyNum
      rw [h]
    unfold extract_document_info
    rw [hnum]
    constructor
    · rw [mget_applyDate_ne _ _ _ (by decide)]
      exact mget_docTypeInfo_other _ _ (by decide) (by decide)
    · rw [mget_applyDate_ne _ _ _ (by decide)]
      exact mget_docTypeInfo_other _ _ (by decide) (by decide)
  · intro l
    induction l with
    | nil => intro _; rfl
    | cons c cs ih =>
        intro h
        have hsplit := h
        unfold containsSub at hsplit
        rw [Bool.or_eq_false_iff] at hsplit
        have hno : matchNumAt (c :: cs) = none := by
          unfold matchNumAt
          split
          · rename_i heq
            exfalso
            injection heq with hc hrest
            subst hc
            have hpre := hsplit.1
            simp [List.isPrefixOf] at hpre
          · rfl
        unfold searchNum
        rw [hno]
        exact ih hsplit.2

/-- Witness for `docNumber_marker` at concrete inputs. -/
theorem docNumber_marker_wit :
    (mget (extract_document_info "abc" "") "doc_number" = none ∧
     mget (extract_document_info "abc" "") "doc_year" = none) ∧
    searchNum "xyz".data = none :=
  ⟨docNumber_marker.1 "abc" "" (by decide),
   docNumber_marker.2.1 "xyz".data (by decide)⟩

/-- Counterexample to C8 as stated: the spec says the `n` marker is
optional, predicting `doc_number = "11.034"` for `"Decreto 11.034/2022"`;
the code's pattern requires the marker, so the field is absent. -/
theorem docNumber_marker_cex :
    mget (extract_document_info "Decreto 11.034/2022" "") "doc_number" ≠
      some (MVal.str "11.034") ∧
    mget (extract_document_info "Decreto 11.034/2022" "") "doc_number" =
      none := by
  constructor
  · decide
  · decide

/-- C9 (corrected): `publication_date` is taken from the first occurrence of
`<day> de <month-name> de <year>` in the body text, with the month name
mapped through a fixed 12-entry table defaulting to `"00"`, and formatted as
`{day}/{month}/{year}` with the day copied verbatim — the source does not
zero-pad a one-digit day, so `"8 de abril de 2019"` yields `"8/04/2019"`
(not `"08/04/2019"`); the field is absent when no match is found. -/
theorem pubDate_format :
    (∀ (n b : String) (day mon yr : List Char),
      searchDate b.data = some (day, mon, yr) →
      mget (extract_document_info n b) "publication_date" =
        some (MVal.str (String.mk day ++ "/" ++ month_to_number ⟨mon⟩ ++
          "/" ++ String.mk yr))) ∧
    (∀ n b : String, searchDate b.data = none →
      mget (extract_document_info n b) "publication_date" = none) ∧
    month_to_number "setembro" = "09" ∧
    month_to_number "Abril" = "04" ∧
    month_to_number "brumaire" = "00" ∧
    mget (extract_document_info "x" "8 de abril de 2019")
      "publication_date" = some (MVal.str "8/04/2019") ∧
    mget (extract_document_info "Decreto n. 5.903/2006"
        "Brasília, 20 de setembro de 2006") "publication_date" =
      some (MVal.str "20/09/2006") := by
  refine ⟨?_, ?_, by decide, by decide, by decide, by decide, by decide⟩
  · intro n b day mon yr h
    unfold extract_document_info applyDate
    rw [h]
    exact mget_mset_self _ _ _
  · intro n b h
    have hdate : applyDate b.data (applyNum n.data (docTypeInfo n)) =
        applyNum n.data (docTypeInfo n) := by
      unfold applyDate
      rw [h]
    unfold extract_document_info
    rw [hdate, mget_applyNum_ne _ _ _ (by decide) (by decide)]
    exact mget_docTypeInfo_other _ _ (by decide) (by decide)

/-- Witness for `pubDate_format` at concrete inputs. -/
theorem pubDate_format_wit :
    mget (extract_document_info "y" "8 de abril de 2019")
        "publication_date" =
      some (MVal.str (String.mk ['8'] ++ "/" ++
        month_to_number ⟨"abril".data⟩ ++ "/" ++ String.mk "2019".data)) ∧
    mget (extract_document_info "y" "sem data") "publication_date" = none :=
  ⟨pubDate_format.1 "y" "8 de abril de 2019" ['8'] "abril".data
      "2019".data (by decide),
   pubDate_format.2.1 "y" "sem data" (by decide)⟩

/-- Counterexample to C9 as stated: the spec predicts a two-digit
zero-padded day `"08/04/2019"`, but the code emits the day verbatim. -/
theorem pubDate_format_cex :
    mget (extract_document_info "x" "8 de abril de 2019")
        "publication_date" ≠ some (MVal.str "08/04/2019") ∧
    mget (extract_document_info "x" "8 de abril de 2019")
        "publication_date" = some (MVal.str "8/04/2019") := by
  constructor
  · decide
  · decide

/-! ## Supporting lemmas: the reranker -/

theorem insDesc_perm (x : LCDoc) (l : List LCDoc) :
    List.Perm (insDesc x l) (x :: l) := by
  induction l with
  | nil => exact List.Perm.refl _
  | cons y ys ih =>
      unfold insDesc
      by_cases h : adjKey x < adjKey y
      · rw [if_pos h]
        exact (ih.cons y).trans (List.Perm.swap x y ys)
      · rw [if_neg h]

theorem sortDesc_perm (l : List LCDoc) : List.Perm (sortDesc l) l := by
  induction l with
  | nil => exact List.Perm.refl _
  | cons x xs ih =>
      exact (insDesc_perm x (sortDesc xs)).trans (ih.cons x)

theorem insDesc_sorted (x : LCDoc) (l : List LCDoc)
    (h : l.Pairwise (fun a b => adjKey b ≤ adjKey a)) :
    (insDesc x l).Pairwise (fun a b => adjKey b ≤ adjKey a) := by
  induction l with
  | nil => simp [insDesc]
  | cons y ys ih =>
      rw [List.pairwise_cons] at h
      obtain ⟨hy, hys⟩ := h
      unfold insDesc
      by_cases hc : adjKey x < adjKey y
      · rw [if_pos hc]
        rw [List.pairwise_cons]
        refine ⟨?_, ih hys⟩
        intro a ha
        rcases List.mem_cons.mp (((insDesc_perm x ys).mem_iff).mp ha) with
          rfl | hmem
        · exact le_of_lt hc
        · exact hy a hmem
      · rw [if_neg hc]
        have hxy : adjKey y ≤ adjKey x := le_of_not_lt hc
        rw [List.pairwise_cons]
        refine ⟨?_, List.pairwise_cons.mpr ⟨hy, hys⟩⟩
        intro a ha
        rcases List.mem_cons.mp ha with rfl | hays
        · exact hxy
        · exact (hy a hays).trans hxy

theorem sortDesc_sorted (l : List LCDoc) :
    (sortDesc l).Pairwise (fun a b => adjKey b ≤ adjKey a) := by
  induction l with
  | nil => simp [sortDesc]
  | cons x xs ih => exact insDesc_sorted x (sortDesc xs) ih

theorem filter_insDesc_ne (x : LCDoc) (l : List LCDoc) (q : ℚ)
    (hx : adjKey x ≠ q) :
    (insDesc x l).filter (fun d => decide (adjKey d = q)) =
      l.filter (fun d => decide (adjKey d = q)) := by
  induction l with
  | nil => simp [insDesc, List.filter_cons, hx]
  | cons y ys ih =>
      unfold insDesc
      by_cases hc : adjKey x < adjKey y
      · rw [if_pos hc, List.filter_cons, List.filter_cons, ih]
      · rw [if_neg hc, List.filter_cons]
        simp [hx]

theorem filter_insDesc_eq (x : LCDoc) (l : List LCDoc) (q : ℚ)
    (hx : adjKey x = q)
    (hs : l.Pairwise (fun a b => adjKey b ≤ adjKey a)) :
    (insDesc x l).filter (fun d => decide (adjKey d = q)) =
      x :: l.filter (fun d => decide (adjKey d = q)) := by
  induction l with
  | nil => simp [insDesc, List.filter_cons, hx]
  | cons y ys ih =>
      rw [List.pairwise_cons] at hs
      obtain ⟨hy, hys⟩ := hs
      unfold insDesc
      by_cases hc : adjKey x < adjKey y
      · rw [if_pos hc]
        have hyq : adjKey y ≠ q := by
          rw [← hx]
          exact ne_of_gt hc
        rw [List.filter_cons, List.filter_cons]
        simp [hyq, ih hys]
      · rw [if_neg hc, List.filter_cons]
        simp [hx]

theorem sortDesc_filter (l : List LCDoc) (q : ℚ) :
    (sortDesc l).filter (fun d => decide (adjKey d = q)) =
      l.filter (fun d => decide (adjKey d = q)) := by
  induction l with
  | nil => rfl
  | cons x xs ih =>
      show (insDesc x (sortDesc xs)).filter _ = _
      by_cases hx : adjKey x = q
      · rw [filter_insDesc_eq x _ q hx (sortDesc_sorted xs), ih,
          List.filter_cons]
        simp [hx]
      · rw [filter_insDesc_ne x _ q hx, ih, List.filter_cons]
        simp [hx]

/-- C2 (confirmed): for every candidate the reranker computes
`adjusted_score = base_score + bonus` with `base_score` the incoming score
(0 if absent) and independent additive bonuses `+0.2` for
`importance == "alta"`, `+0.1` for `content_type == "article"` and `+0.1`
for a present `doc_year` parsing to an integer greater than 2018 (a
non-numeric `doc_year` contributes nothing and does not raise); on the
spec's example pair the second candidate is returned first with
`adjusted_score = 0.7`. -/
theorem rerank_scoring :
    (∀ md : Metadata, computeAdjusted md = baseScore md +
      (if mget md "importance" = some (MVal.str "alta") then 2/10 else 0) +
      (if mget md "content_type" = some (MVal.str "article") then 1/10
        else 0) +
      (if yearRecent md = true then 1/10 else 0)) ∧
    rerank_by_metadata [exDoc1, exDoc2] = [setAdj exDoc2, setAdj exDoc1] ∧
    adjKey (setAdj exDoc2) = 7/10 := by
  refine ⟨?_, ?_, ?_⟩
  · intro md
    have h1 : ∀ s : ℚ, scoreStep1 md s =
        s + (if mget md "importance" = some (MVal.str "alta") then 2/10
          else 0) := by
      intro s
      unfold scoreStep1
      split_ifs <;> ring
    have h2 : ∀ s : ℚ, scoreStep2 md s =
        s + (if mget md "content_type" = some (MVal.str "article") then 1/10
          else 0) := by
      intro s
      unfold scoreStep2
      split_ifs <;> ring
    have h3 : ∀ s : ℚ, scoreStep3 md s =
        s + (if yearRecent md = true then 1/10 else 0) := by
      intro s
      unfold scoreStep3 yearRecent
      cases hy : mget md "doc_year" with
      | none => simp
      | some v =>
          cases v with
          | num q => simp
          | str y =>
              by_cases hye : y.isEmpty
              · simp [hye]
              · cases hp : pyInt y with
                | none => simp [hye, hp]
                | some n =>
                    by_cases hn : 2018 < n
                    · simp [hye, hp, hn]
                    · simp [hye, hp, hn]
    unfold computeAdjusted
    rw [h3, h2, h1]
  · have hlt : adjKey (setAdj exDoc1) < adjKey (setAdj exDoc2) := by
      simp [adjKey, setAdj, computeAdjusted, baseScore, scoreStep1,
        scoreStep2, scoreStep3, exDoc1, exDoc2, mget, mset]
      norm_num
    simp [rerank_by_metadata, sortDesc, insDesc, hlt]
  · simp [adjKey, setAdj, computeAdjusted, baseScore, scoreStep1,
      scoreStep2, scoreStep3, exDoc2, mget, mset]
    norm_num

/-! ## Supporting lemmas: the segmenter -/

theorem enumMap_length {α β : Type} (f : Nat → α → β) (n : Nat)
    (l : List α) : (enumMap f n l).length = l.length := by
  induction l generalizing n with
  | nil => rfl
  | cons a as ih => simp [enumMap, ih]

theorem enumMap_getElem {α β : Type} (f : Nat → α → β) :
    ∀ (l : List α) (n i : Nat),
      (enumMap f n l)[i]? = (l[i]?).map (fun a => f (n + i) a) := by
  intro l
  induction l with
  | nil => intro n i; simp [enumMap]
  | cons a as ih =>
      intro n i
      cases i with
      | zero => simp [enumMap]
      | succ j =>
          have e : n + 1 + j = n + (j + 1) := by omega
          simp [enumMap, ih (n + 1) j, e]

theorem validateChunks_wf (l : List RawChunk) :
    ∀ c ∈ validateChunks l, wfRaw c = true := by
  induction l with
  | nil =>
      intro c hc
      simp [validateChunks] at hc
  | cons x rest ih =>
      intro c hc
      cases x with
      | plain s =>
          rw [show validateChunks (RawChunk.plain s :: rest) =
                RawChunk.dict (some s)
                  (some [("source", MVal.str "document")]) ::
                  validateChunks rest from rfl] at hc
          rcases List.mem_cons.mp hc with rfl | h2
          · rfl
          · exact ih c h2
      | dict t m =>
          cases t with
          | none =>
              rw [show validateChunks (RawChunk.dict none m :: rest) =
                    validateChunks rest from by cases m <;> rfl] at hc
              exact ih c hc
          | some t2 =>
              cases m with
              | none =>
                  rw [show validateChunks
                        (RawChunk.dict (some t2) none :: rest) =
                        validateChunks rest from rfl] at hc
                  exact ih c hc
              | some m2 =>
                  rw [show validateChunks
                        (RawChunk.dict (some t2) (some m2) :: rest) =
                        RawChunk.dict (some t2) (some m2) ::
                          validateChunks rest from rfl] at hc
                  rcases List.mem_cons.mp hc with rfl | h2
                  · rfl
                  · exact ih c h2

theorem validateChunks_enumMap {α : Type} (f : Nat → α → String)
    (g : Nat → α → Metadata) :
    ∀ (l : List α) (n : Nat),
      validateChunks (enumMap
        (fun i a => RawChunk.dict (some (f i a)) (some (g i a))) n l) =
      enumMap (fun i a => RawChunk.dict (some (f i a)) (some (g i a))) n l := by
  intro l
  induction l with
  | nil => intro n; rfl
  | cons a as ih =>
      intro n
      rw [show enumMap
            (fun i a => RawChunk.dict (some (f i a)) (some (g i a))) n
            (a :: as) =
            RawChunk.dict (some (f n a)) (some (g n a)) ::
              enumMap (fun i a => RawChunk.dict (some (f i a)) (some (g i a)))
                (n + 1) as from rfl]
      rw [show validateChunks
            (RawChunk.dict (some (f n a)) (some (g n a)) :: enumMap
              (fun i a => RawChunk.dict (some (f i a)) (some (g i a)))
              (n + 1) as) =
            RawChunk.dict (some (f n a)) (some (g n a)) :: validateChunks
              (enumMap (fun i a => RawChunk.dict (some (f i a)) (some (g i a)))
                (n + 1) as) from rfl]
      rw [ih (n + 1)]

/-- C3 (confirmed): reranking returns exactly the incoming candidates (each
annotated with its `adjusted_score`, nothing added, removed or duplicated),
in descending `adjusted_score` order, and the sort is stable: restricted to
any fixed `adjusted_score` value, the output order equals the input order. -/
theorem rerank_stable :
    ∀ docs : List LCDoc,
      List.Perm (rerank_by_metadata docs) (docs.map setAdj) ∧
      (rerank_by_metadata docs).Pairwise
        (fun a b => adjKey b ≤ adjKey a) ∧
      ∀ q : ℚ,
        (rerank_by_metadata docs).filter (fun d => decide (adjKey d = q)) =
          (docs.map setAdj).filter (fun d => decide (adjKey d = q)) := by
  intro docs
  exact ⟨sortDesc_perm _, sortDesc_sorted _, fun q => sortDesc_filter _ q⟩

/-- C10 (confirmed): every element of the list returned by
`split_legal_text` is a dict carrying both a `text` and a `metadata` entry,
and the final validation pass wraps a stray string chunk as
`{"text": chunk, "metadata": {"source": "document"}}`, so the result never
contains a bare string or a dict missing either key. -/
theorem chunks_validated :
    (∀ (splitter : String → List String) (text : String) (info : Metadata),
      (split_legal_text splitter text info).all wfRaw = true) ∧
    (∀ (s : String) (rest : List RawChunk),
      validateChunks (RawChunk.plain s :: rest) =
        RawChunk.dict (some s) (some [("source", MVal.str "document")]) ::
          validateChunks rest) := by
  constructor
  · intro splitter text info
    rw [List.all_eq_true]
    intro c hc
    exact validateChunks_wf _ c hc
  · intro s rest
    rfl

/-- C4 (corrected): on the fallback path (no article match) every chunk's
`chunk_index` is its 0-based position and `total_chunks` is the number of
chunks returned (one per splitter window); however the fallback never sets
`content_type` — the field is absent (for document metadata that does not
already carry one), not `"chunk"` as the spec states. -/
theorem fallback_chunk_meta (splitter : String → List String) (text : String)
    (info : Metadata) (i : Nat) (c : RawChunk)
    (hf : findall text.data = [])
    (hc : (split_legal_text splitter text info)[i]? = some c)
    (hct : mget info "content_type" = none) :
    (split_legal_text splitter text info).length = (splitter text).length ∧
    rawMetaGet c "chunk_index" = some (MVal.num i) ∧
    rawMetaGet c "total_chunks" =
      some (MVal.num ((split_legal_text splitter text info).length)) ∧
    rawMetaGet c "content_type" = none := by
  have hout : split_legal_text splitter text info =
      enumMap (fun i w => RawChunk.dict (some w)
        (some (mset (mset info "chunk_index" (MVal.num i))
          "total_chunks" (MVal.num (splitter text).length)))) 0
        (splitter text) := by
    unfold split_legal_text buildChunks
    rw [hf]
    exact validateChunks_enumMap _ _ _ _
  have hlen : (split_legal_text splitter text info).length =
      (splitter text).length := by
    rw [hout, enumMap_length]
  rw [hout, enumMap_getElem] at hc
  cases hw : (splitter text)[i]? with
  | none =>
      rw [hw] at hc
      simp at hc
  | some w =>
      rw [hw] at hc
      simp only [Option.map_some', Option.some.injEq, Nat.zero_add] at hc
      subst hc
      refine ⟨hlen, ?_, ?_, ?_⟩
      · show mget _ "chunk_index" = _
        rw [mget_mset_ne _ _ _ _ (by decide), mget_mset_self]
      · show mget _ "total_chunks" = _
        rw [hlen, mget_mset_self]
      · show mget _ "content_type" = _
        rw [mget_mset_ne _ _ _ _ (by decide),
          mget_mset_ne _ _ _ _ (by decide)]
        exact hct

/-- Witness for `fallback_chunk_meta` at a concrete input. -/
theorem fallback_chunk_meta_wit :
    (split_legal_text pySplitText "ola mundo" []).length =
      (pySplitText "ola mundo").length ∧
    rawMetaGet (RawChunk.dict (some "ola mundo")
        (some [("chunk_index", MVal.num 0), ("total_chunks", MVal.num 1)]))
      "chunk_index" = some (MVal.num 0) ∧
    rawMetaGet (RawChunk.dict (some "ola mundo")
        (some [("chunk_index", MVal.num 0), ("total_chunks", MVal.num 1)]))
      "total_chunks" =
      some (MVal.num ((split_legal_text pySplitText "ola mundo" []).length)) ∧
    rawMetaGet (RawChunk.dict (some "ola mundo")
        (some [("chunk_index", MVal.num 0), ("total_chunks", MVal.num 1)]))
      "content_type" = none :=
  fallback_chunk_meta pySplitText "ola mundo" [] 0
    (RawChunk.dict (some "ola mundo")
      (some [("chunk_index", MVal.num 0), ("total_chunks", MVal.num 1)]))
    (by decide) (by decide) (by decide)

/-- Counterexample to C4 as stated: on the fallback path the code never
writes `content_type`, so a fallback chunk does not carry
`content_type = "chunk"`. -/
theorem fallback_chunk_meta_cex :
    rawMetaGet ((split_legal_text pySplitText "ola mundo" []).headI)
      "content_type" ≠ some (MVal.str "chunk") ∧
    rawMetaGet ((split_legal_text pySplitText "ola mundo" []).headI)
      "content_type" = none ∧
    rawMetaGet ((split_legal_text pySplitText "ola mundo" []).headI)
      "chunk_index" = some (MVal.num 0) := by
  refine ⟨by decide, by decide, by decide⟩

/-- C5 (corrected): when a detected article's built text
`"Artigo {number}: {body}"` exceeds `CHUNK_SIZE`, the segmenter re-splits it
into windows and each window becomes its own chunk whose metadata carries
`part` (1-based window index), `total_parts` (window count), and inherits
everything else from the article (`article_number` and the document-level
fields) — but `content_type` remains `"article"`: the oversize branch of
`split_legal_text` never writes `"article_part"`. -/
theorem article_subdivision (splitter : String → List String)
    (info : Metadata) (number content : List Char) (i : Nat) (c : RawChunk)
    (k : String)
    (hbig : CHUNK_SIZE < (articleText number content).length)
    (hc : (buildArticleChunks splitter info number content)[i]? = some c)
    (hk1 : k ≠ "article_number") (hk2 : k ≠ "content_type")
    (hk3 : k ≠ "part") (hk4 : k ≠ "total_parts") :
    (buildArticleChunks splitter info number content).length =
      (splitter ⟨articleText number content⟩).length ∧
    rawText c = (splitter ⟨articleText number content⟩)[i]? ∧
    rawMetaGet c "content_type" = some (MVal.str "article") ∧
    rawMetaGet c "part" = some (MVal.num ((i + 1 : Nat) : ℚ)) ∧
    rawMetaGet c "total_parts" =
      some (MVal.num ((splitter ⟨articleText number content⟩).length)) ∧
    rawMetaGet c "article_number" = some (MVal.str ⟨pyStrip number⟩) ∧
    rawMetaGet c k = mget info k ∧
    (∀ t : String, findall t.data ≠ [] →
      split_legal_text splitter t info =
        validateChunks ((findall t.data).flatMap
          (fun a => buildArticleChunks splitter info a.1 a.2))) := by
  have hout : buildArticleChunks splitter info number content =
      enumMap (fun j sub => RawChunk.dict (some sub)
        (some (mset (mset (articleMeta info number) "part"
            (MVal.num ((j + 1 : Nat) : ℚ)))
          "total_parts"
          (MVal.num (splitter ⟨articleText number content⟩).length)))) 0
        (splitter ⟨articleText number content⟩) := by
    unfold buildArticleChunks
    rw [if_pos hbig]
  rw [hout, enumMap_getElem] at hc
  cases hw : (splitter ⟨articleText number content⟩)[i]? with
  | none =>
      rw [hw] at hc
      simp at hc
  | some w =>
      rw [hw] at hc
      simp only [Option.map_some', Option.some.injEq, Nat.zero_add] at hc
      subst hc
      refine ⟨?_, ?_, ?_, ?_, ?_, ?_, ?_, ?_⟩
      · rw [hout, enumMap_length]
      · rfl
      · show mget _ "content_type" = _
        rw [mget_mset_ne _ _ _ _ (by decide), mget_mset_ne _ _ _ _ (by decide)]
        exact mget_mset_self _ _ _
      · show mget _ "part" = _
        rw [mget_mset_ne _ _ _ _ (by decide)]
        exact mget_mset_self _ _ _
      · show mget _ "total_parts" = _
        exact mget_mset_self _ _ _
      · show mget _ "article_number" = _
        rw [mget_mset_ne _ _ _ _ (by decide), mget_mset_ne _ _ _ _ (by decide)]
        unfold articleMeta
        rw [mget_mset_ne _ _ _ _ (by decide)]
        exact mget_mset_self _ _ _
      · show mget _ k = _
        rw [mget_mset_ne _ _ _ _ hk4, mget_mset_ne _ _ _ _ hk3]
        unfold articleMeta
        rw [mget_mset_ne _ _ _ _ hk2, mget_mset_ne _ _ _ _ hk1]
      · intro t ht
        unfold split_legal_text buildChunks
        cases hfa : findall t.data with
        | nil => exact absurd hfa ht
        | cons a as => rfl

/-- Witness for `article_subdivision` at a concrete oversized article. -/
theorem article_subdivision_wit :
    (buildArticleChunks pySplitText [] ['1']
        (List.replicate 800 'a')).length =
      (pySplitText ⟨articleText ['1'] (List.replicate 800 'a')⟩).length ∧
    rawText (RawChunk.dict (some ⟨List.replicate 210 'a'⟩)
        (some [("article_number", MVal.str "1"),
          ("content_type", MVal.str "article"),
          ("part", MVal.num 2), ("total_parts", MVal.num 2)])) =
      (pySplitText ⟨articleText ['1'] (List.replicate 800 'a')⟩)[1]? ∧
    rawMetaGet (RawChunk.dict (some ⟨List.replicate 210 'a'⟩)
        (some [("article_number", MVal.str "1"),
          ("content_type", MVal.str "article"),
          ("part", MVal.num 2), ("total_parts", MVal.num 2)]))
      "content_type" = some (MVal.str "article") ∧
    rawMetaGet (RawChunk.dict (some ⟨List.replicate 210 'a'⟩)
        (some [("article_number", MVal.str "1"),
          ("content_type", MVal.str "article"),
          ("part", MVal.num 2), ("total_parts", MVal.num 2)]))
      "part" = some (MVal.num ((1 + 1 : Nat) : ℚ)) ∧
    rawMetaGet (RawChunk.dict (some ⟨List.replicate 210 'a'⟩)
        (some [("article_number", MVal.str "1"),
          ("content_type", MVal.str "article"),
          ("part", MVal.num 2), ("total_parts", MVal.num 2)]))
      "total_parts" =
      some (MVal.num
        ((pySplitText ⟨articleText ['1'] (List.replicate 800 'a')⟩).length)) ∧
    rawMetaGet (RawChunk.dict (some ⟨List.replicate 210 'a'⟩)
        (some [("article_number", MVal.str "1"),
          ("content_type", MVal.str "article"),
          ("part", MVal.num 2), ("total_parts", MVal.num 2)]))
      "article_number" = some (MVal.str ⟨pyStrip ['1']⟩) ∧
    rawMetaGet (RawChunk.dict (some ⟨List.replicate 210 'a'⟩)
        (some [("article_number", MVal.str "1"),
          ("content_type", MVal.str "article"),
          ("part", MVal.num 2), ("total_parts", MVal.num 2)]))
      "source" = mget [] "source" ∧
    (∀ t : String, findall t.data ≠ [] →
      split_legal_text pySplitText t [] =
        validateChunks ((findall t.data).flatMap
          (fun a => buildArticleChunks pySplitText [] a.1 a.2))) :=
  article_subdivision pySplitText [] ['1'] (List.replicate 800 'a') 1
    (RawChunk.dict (some ⟨List.replicate 210 'a'⟩)
      (some [("article_number", MVal.str "1"),
        ("content_type", MVal.str "article"),
        ("part", MVal.num 2), ("total_parts", MVal.num 2)]))
    "source" (by decide) (by decide) (by decide) (by decide) (by decide)
    (by decide)

/-- Counterexample to C5 as stated: on an oversized article the windows'
`content_type` stays `"article"`, never `"article_part"`. -/
theorem article_subdivision_cex :
    CHUNK_SIZE < (articleText ['1'] (List.replicate 800 'a')).length ∧
    rawMetaGet ((split_legal_text pySplitText longArticle []).headI)
      "content_type" ≠ some (MVal.str "article_part") ∧
    rawMetaGet ((split_legal_text pySplitText longArticle []).headI)
      "content_type" = some (MVal.str "article") ∧
    rawMetaGet ((split_legal_text pySplitText longArticle []).headI)
      "part" = some (MVal.num 1) := by
  refine ⟨by decide, by decide, by decide, by decide⟩

/-! ## Supporting lemma: case-sensitive article-token scan -/

theorem findallAux_no_art :
    ∀ (fuel : Nat) (l : List Char), containsArt l = false →
      findallAux fuel l = [] := by
  intro fuel
  induction fuel with
  | zero => intro l h; rfl
  | succ f ih =>
      intro l h
      cases l with
      | nil => rfl
      | cons c cs =>
          have h2 := h
          unfold containsArt at h2
          have hsplit := Bool.or_eq_false_iff.mp h2
          have hmh : matchHeader (c :: cs) = none := by
            unfold matchHeader
            rw [hsplit.1]
            rfl
          have hred : findallAux (f + 1) (c :: cs) =
              (match matchHeader (c :: cs) with
               | some hd => (hd.1, (takeContent hd.2).1) ::
                   findallAux f (takeContent hd.2).2
               | none => findallAux f cs) := rfl
          rw [hred, hmh]
          exact ih cs hsplit.2

/-- C7 (corrected): article boundary detection is case-sensitive on the
token `Art` (a text with no occurrence of `Art` produces no article, and
lowercase `art. 5` starts none), but the period after `Art` is optional in
the source regex (`Art\.?`), so `"Art 5 texto"` does start an article and
such a document does not take the fallback windowing path. -/
theorem art_token_case :
    (∀ l : List Char, containsArt l = false → findall l = []) ∧
    findall "art. 5 x".data = [] ∧
    findall "Art 5 texto".data = [(['5'], "texto".data)] ∧
    rawMetaGet ((split_legal_text pySplitText "Art 5 texto" []).headI)
      "content_type" = some (MVal.str "article") := by
  refine ⟨?_, by decide, by decide, by decide⟩
  intro l h
  exact findallAux_no_art _ l h

/-- Witness for `art_token_case` at a concrete input. -/
theorem art_token_case_wit : findall "ola mundo".data = [] :=
  art_token_case.1 "ola mundo".data (by decide)

/-- Counterexample to C7 as stated: the claim predicts that `"Art 5"`
(no period) starts no article segment; the code's regex makes the period
optional, so it does. -/
theorem art_token_case_cex :
    findall "Art 5 texto".data ≠ [] ∧
    rawMetaGet ((split_legal_text pySplitText "Art 5 texto" []).headI)
      "chunk_index" = none := by
  refine ⟨by decide, by decide⟩
/-! ## Supporting lemmas: the normalizer -/

theorem headOk_cons (a : Char) (t : List Char) :
    headOk (a :: t) = !isPySpace a := rfl

theorem noDbl_cons2 (a b : Char) (t : List Char) :
    noDbl (a :: b :: t) =
      (!(isPySpace a && isPySpace b) && noDbl (b :: t)) := rfl

theorem bool_and_true {x y : Bool} (h : (x && y) = true) :
    x = true ∧ y = true := by
  revert h
  cases x <;> cases y <;> simp

theorem bool_not_true {x : Bool} (h : (!x) = true) : x = false := by
  revert h
  cases x <;> simp

theorem bool_ne_true {x : Bool} (h : ¬ x = true) : x = false := by
  revert h
  cases x <;> simp

theorem mem_pyStrip {c : Char} {l : List Char} (h : c ∈ pyStrip l) :
    c ∈ l := by
  unfold pyStrip at h
  rw [List.mem_reverse] at h
  have h2 : c ∈ (l.dropWhile isPySpace).reverse :=
    (List.dropWhile_sublist isPySpace).mem h
  rw [List.mem_reverse] at h2
  exact (List.dropWhile_sublist isPySpace).mem h2

theorem clean_text_no_ctrl (l : List Char) :
    ∀ c ∈ clean_text l, isCtrl c = false := by
  intro c hc
  unfold clean_text at hc
  have h2 := mem_pyStrip hc
  have h3 := (List.mem_filter.mp h2).2
  simpa using h3

theorem collapseAux_mem :
    ∀ (prev : Bool) (l : List Char) (c : Char), c ∈ collapseAux prev l →
      c = ' ' ∨ (c ∈ l ∧ isPySpace c = false) := by
  intro prev l
  induction l generalizing prev with
  | nil =>
      intro c hc
      simp [collapseAux] at hc
  | cons a as ih =>
      intro c hc
      unfold collapseAux at hc
      by_cases ha : isPySpace a = true
      · rw [if_pos ha] at hc
        cases prev with
        | true =>
            rcases ih true c hc with h | ⟨hm, hs⟩
            · exact Or.inl h
            · exact Or.inr ⟨List.mem_cons_of_mem a hm, hs⟩
        | false =>
            rcases List.mem_cons.mp hc with rfl | h2
            · exact Or.inl rfl
            · rcases ih true c h2 with h | ⟨hm, hs⟩
              · exact Or.inl h
              · exact Or.inr ⟨List.mem_cons_of_mem a hm, hs⟩
      · rw [if_neg ha] at hc
        rcases List.mem_cons.mp hc with rfl | h2
        · exact Or.inr ⟨List.mem_cons_self _ _, bool_ne_true ha⟩
        · rcases ih false c h2 with h | ⟨hm, hs⟩
          · exact Or.inl h
          · exact Or.inr ⟨List.mem_cons_of_mem a hm, hs⟩

theorem collapseAux_true_headOk (l : List Char) :
    headOk (collapseAux true l) = true := by
  induction l with
  | nil => rfl
  | cons a as ih =>
      unfold collapseAux
      by_cases ha : isPySpace a = true
      · rw [if_pos ha]
        exact ih
      · rw [if_neg ha]
        rw [headOk_cons, bool_ne_true ha]
        rfl

theorem noDbl_cons_of (a : Char) (m : List Char)
    (h1 : isPySpace a = false ∨ headOk m = true) (h2 : noDbl m = true) :
    noDbl (a :: m) = true := by
  cases m with
  | nil => rfl
  | cons b t =>
      rw [noDbl_cons2, Bool.and_eq_true]
      refine ⟨?_, h2⟩
      rcases h1 with ha | hb
      · rw [ha]
        rfl
      · rw [headOk_cons] at hb
        rw [bool_not_true hb, Bool.and_false]
        rfl

theorem collapseAux_noDbl :
    ∀ (l : List Char) (prev : Bool), noDbl (collapseAux prev l) = true := by
  intro l
  induction l with
  | nil => intro prev; rfl
  | cons a as ih =>
      intro prev
      unfold collapseAux
      by_cases ha : isPySpace a = true
      · rw [if_pos ha]
        cases prev with
        | true => exact ih true
        | false =>
            exact noDbl_cons_of _ _ (Or.inr (collapseAux_true_headOk as))
              (ih true)
      · rw [if_neg ha]
        exact noDbl_cons_of _ _ (Or.inl (bool_ne_true ha)) (ih false)

theorem noDbl_tail {a : Char} {m : List Char} (h : noDbl (a :: m) = true) :
    noDbl m = true := by
  cases m with
  | nil => rfl
  | cons b t =>
      rw [noDbl_cons2] at h
      exact (bool_and_true h).2

theorem noDbl_dropWhile (p : Char → Bool) (l : List Char)
    (h : noDbl l = true) : noDbl (l.dropWhile p) = true := by
  induction l with
  | nil => exact h
  | cons a as ih =>
      rw [List.dropWhile_cons]
      by_cases hp : p a = true
      · rw [if_pos hp]
        exact ih (noDbl_tail h)
      · rw [if_neg hp]
        exact h

theorem noDbl_snoc :
    ∀ (xs : List Char) (a : Char), noDbl xs = true →
      (∀ y, xs.getLast? = some y →
        (isPySpace y && isPySpace a) = false) →
      noDbl (xs ++ [a]) = true := by
  intro xs
  induction xs with
  | nil => intro a _ _; rfl
  | cons x rest ih =>
      intro a h hb
      cases rest with
      | nil =>
          have hx := hb x rfl
          show noDbl (x :: a :: []) = true
          rw [noDbl_cons2, hx]
          rfl
      | cons r t =>
          have hstep : noDbl (r :: (t ++ [a])) = true := by
            have hs2 := ih a (noDbl_tail h)
              (fun y hy => hb y (by rw [List.getLast?_cons_cons]; exact hy))
            rw [List.cons_append] at hs2
            exact hs2
          show noDbl ((x :: r :: t) ++ [a]) = true
          rw [List.cons_append, List.cons_append, noDbl_cons2,
            Bool.and_eq_true]
          rw [noDbl_cons2] at h
          exact ⟨(bool_and_true h).1, hstep⟩

theorem noDbl_reverse (l : List Char) (h : noDbl l = true) :
    noDbl l.reverse = true := by
  induction l with
  | nil => rfl
  | cons c cs ih =>
      rw [List.reverse_cons]
      refine noDbl_snoc _ _ (ih (noDbl_tail h)) ?_
      intro y hy
      rw [List.getLast?_reverse] at hy
      cases cs with
      | nil => simp at hy
      | cons b t =>
          have hyb : b = y := by simpa using hy
          subst hyb
          rw [noDbl_cons2] at h
          have h1 := (bool_and_true h).1
          have h2 : (isPySpace c && isPySpace b) = false := bool_not_true h1
          rw [Bool.and_comm] at h2
          exact h2

theorem headOk_dropWhile (l : List Char) :
    headOk (l.dropWhile isPySpace) = true := by
  induction l with
  | nil => rfl
  | cons a as ih =>
      rw [List.dropWhile_cons]
      by_cases ha : isPySpace a = true
      · rw [if_pos ha]
        exact ih
      · rw [if_neg ha]
        rw [headOk_cons, bool_ne_true ha]
        rfl

theorem getLast?_dropWhile (p : Char → Bool) (l : List Char)
    (h : l.dropWhile p ≠ []) :
    (l.dropWhile p).getLast? = l.getLast? := by
  induction l with
  | nil => exact absurd rfl h
  | cons a as ih =>
      rw [List.dropWhile_cons] at h ⊢
      by_cases hp : p a = true
      · rw [if_pos hp] at h ⊢
        have has : as ≠ [] := by
          intro he
          subst he
          exact h rfl
        rw [ih h]
        cases as with
        | nil => exact absurd rfl has
        | cons b t => rw [List.getLast?_cons_cons]
      · rw [if_neg hp]

theorem headOk_head? (m : List Char) :
    headOk m = true ↔ ∀ c, m.head? = some c → isPySpace c = false := by
  cases m with
  | nil =>
      constructor
      · intro _ c hc
        cases hc
      · intro _
        rfl
  | cons a t =>
      rw [headOk_cons]
      constructor
      · intro h c hc
        have hac : a = c := by simpa using hc
        subst hac
        exact bool_not_true h
      · intro h
        rw [h a rfl]
        rfl

theorem dropWhile_headOk_id (l : List Char) (h : headOk l = true) :
    l.dropWhile isPySpace = l := by
  cases l with
  | nil => rfl
  | cons a as =>
      rw [headOk_cons] at h
      rw [List.dropWhile_cons, if_neg]
      rw [bool_not_true h]
      exact fun hf => (by cases hf)

theorem clean_text_space_blank (l : List Char) :
    ∀ c ∈ clean_text l, isPySpace c = true → c = ' ' := by
  intro c hc hs
  unfold clean_text at hc
  have h2 := mem_pyStrip hc
  have h3 := (List.mem_filter.mp h2).1
  rcases collapseAux_mem false l c h3 with h | ⟨_, hns⟩
  · exact h
  · rw [hs] at hns
    cases hns

theorem filter_collapse_id (l : List Char)
    (hl : ∀ c ∈ l, isCtrl c = true → isPySpace c = true) :
    (collapse l).filter (fun c => !isCtrl c) = collapse l := by
  apply List.filter_eq_self.mpr
  intro c hc
  rcases collapseAux_mem false l c hc with rfl | ⟨hm, hns⟩
  · decide
  · show (!isCtrl c) = true
    cases hq : isCtrl c
    · rfl
    · have hcs := hl c hm hq
      rw [hcs] at hns
      cases hns

theorem collapseAux_fixed :
    ∀ (l : List Char) (prev : Bool), noDbl l = true →
      (∀ c ∈ l, isPySpace c = true → c = ' ') →
      (prev = true → headOk l = true) →
      collapseAux prev l = l := by
  intro l
  induction l with
  | nil => intro prev _ _ _; rfl
  | cons a as ih =>
      intro prev hnd hsp hprev
      unfold collapseAux
      by_cases ha : isPySpace a = true
      · rw [if_pos ha]
        have ha2 : a = ' ' := hsp a (List.mem_cons_self a as) ha
        have htail : collapseAux true as = as := by
          refine ih true (noDbl_tail hnd) ?_ ?_
          · intro c hc hcs
            exact hsp c (List.mem_cons_of_mem a hc) hcs
          · intro _
            cases as with
            | nil => rfl
            | cons b t =>
                rw [noDbl_cons2] at hnd
                have h1 := (bool_and_true hnd).1
                have h2 := bool_not_true h1
                rw [ha, Bool.true_and] at h2
                rw [headOk_cons, h2]
                rfl
        cases prev with
        | true =>
            exfalso
            have hh := hprev rfl
            rw [headOk_cons, ha] at hh
            cases hh
        | false =>
            show ' ' :: collapseAux true as = a :: as
            rw [htail, ha2]
      · rw [if_neg ha]
        congr 1
        refine ih false (noDbl_tail hnd) ?_ ?_
        · intro c hc hcs
          exact hsp c (List.mem_cons_of_mem a hc) hcs
        · intro h
          cases h

theorem pyStrip_noDbl (l : List Char) (h : noDbl l = true) :
    noDbl (pyStrip l) = true := by
  unfold pyStrip
  exact noDbl_reverse _ (noDbl_dropWhile _ _
    (noDbl_reverse _ (noDbl_dropWhile _ _ h)))

theorem pyStrip_headOk (l : List Char) : headOk (pyStrip l) = true := by
  unfold pyStrip
  by_cases hm : ((l.dropWhile isPySpace).reverse).dropWhile isPySpace = []
  · rw [hm]
    rfl
  · apply (headOk_head? _).mpr
    intro c hc
    rw [List.head?_reverse, getLast?_dropWhile _ _ hm,
      List.getLast?_reverse] at hc
    exact (headOk_head? _).mp (headOk_dropWhile l) c hc

theorem pyStrip_reverse_headOk (l : List Char) :
    headOk (pyStrip l).reverse = true := by
  unfold pyStrip
  rw [List.reverse_reverse]
  exact headOk_dropWhile _

theorem pyStrip_headOk_id (l : List Char) (h1 : headOk l = true)
    (h2 : headOk l.reverse = true) : pyStrip l = l := by
  unfold pyStrip
  rw [dropWhile_headOk_id l h1, dropWhile_headOk_id _ h2,
    List.reverse_reverse]

/-- C6 (corrected): the normalizer's output never contains control
characters (code points 0x00-0x1F and 0x7F-0x9F); but because whitespace is
collapsed before control characters are deleted, removing a non-whitespace
control character that sits between two spaces leaves a double space, and
`clean_text` is not idempotent on such inputs.  Both the no-double-space
property and idempotence do hold for every input whose control characters
are all whitespace. -/
theorem clean_text_props :
    (∀ l : List Char, ∀ c ∈ clean_text l, isCtrl c = false) ∧
    (∀ l : List Char, (∀ c ∈ l, isCtrl c = true → isPySpace c = true) →
      noDbl (clean_text l) = true ∧
      clean_text (clean_text l) = clean_text l) := by
  constructor
  · exact fun l => clean_text_no_ctrl l
  · intro l hl
    have hy : clean_text l = pyStrip (collapse l) := by
      unfold clean_text
      rw [filter_collapse_id l hl]
    have hnd : noDbl (clean_text l) = true := by
      rw [hy]
      exact pyStrip_noDbl _ (collapseAux_noDbl l false)
    refine ⟨hnd, ?_⟩
    have hho : headOk (clean_text l) = true := by
      rw [hy]
      exact pyStrip_headOk _
    have hhr : headOk (clean_text l).reverse = true := by
      rw [hy]
      exact pyStrip_reverse_headOk _
    have hcol : collapse (clean_text l) = clean_text l :=
      collapseAux_fixed (clean_text l) false hnd (clean_text_space_blank l)
        (fun h => absurd h (by decide))
    have hfil : (collapse (clean_text l)).filter (fun c => !isCtrl c) =
        collapse (clean_text l) := by
      apply List.filter_eq_self.mpr
      intro c hc
      rw [hcol] at hc
      have hn := clean_text_no_ctrl l c hc
      simp [hn]
    calc clean_text (clean_text l)
        = pyStrip ((collapse (clean_text l)).filter (fun c => !isCtrl c)) :=
          rfl
      _ = pyStrip (collapse (clean_text l)) := by rw [hfil]
      _ = pyStrip (clean_text l) := by rw [hcol]
      _ = clean_text l := pyStrip_headOk_id _ hho hhr

/-- Witness for `clean_text_props` on an input whose only control character
is whitespace (a tab). -/
theorem clean_text_props_wit :
    noDbl (clean_text "a \t b".data) = true ∧
    clean_text (clean_text "a \t b".data) = clean_text "a \t b".data :=
  clean_text_props.2 "a \t b".data (by decide)

theorem clean_text_props_cex :
    noDbl (clean_text ctrlInput) = false ∧
    clean_text (clean_text ctrlInput) ≠ clean_text ctrlInput := by
  refine ⟨by decide, by decide⟩

end RagConsulta
